import Mathlib

/-!
Shallow embedding of `edb/pgsql/compiler/group.py`: the GROUP-BY lowering
pass of the EdgeDB SQL compiler.  IR nodes, the `FindAggregatingUses`
visitor, the grouping-element compiler, the grouping-value synthesizer and
the `_compile_group` orchestrator are modelled as executable Lean
functions; external collaborators (dispatch, relctx, pathctx, clauses) are
modelled as opaque trace effects.
-/

namespace Group

/-- Path identifiers (`irast.PathId`): globally unique handles, modelled as
naturals. -/
abbrev PathId := Nat

/-- Type modifiers of call parameters and results (`qltypes.TypeModifier`). -/
inductive TypeModifier where
  | SetOfType
  | SingletonType
  | OptionalType
deriving DecidableEq, Repr

/-- IR nodes relevant to the `FindAggregatingUses` traversal.  A `set` node
carries an object identity tag, its `path_id`, optional `rptr`, its shape
and optional `expr`.  A `stmt` node carries the `SelectStmt` flag, the
`orderby` sub-expressions, optional `limit` and `offset`, whether
`materialized_sets` is non-empty (its contents are skipped by the visitor
via `extra_skips`), `bindings`, optional `iterator_stmt`, the mutating
`subject`, the `result`, and the remaining generically visited children.
A `call` node carries the `FunctionCall` flag, the `func_sql_function`
flag, the result type modifier and the arguments zipped with their
parameter type modifiers. -/
inductive IR where
  | set (id : Nat) (path_id : PathId) (rptr : Option IR) (shape : List IR)
        (expr : Option IR)
  | stmt (isSelect : Bool) (orderby : List IR) (limit offset : Option IR)
         (hasMaterialized : Bool) (bindings : List IR)
         (iterator : Option IR) (subject : Option IR) (result : IR)
         (others : List IR)
  | call (isFunctionCall : Bool) (funcSqlFunction : Bool)
         (typemod : TypeModifier) (args : List (TypeModifier × IR))
  | generic (children : List IR)
deriving Repr

/-- Path id of a set node (sightings recorded by the analyzer are always
set nodes). -/
def IR.pathIdOf : IR → PathId
  | .set _ p _ _ _ => p
  | _ => 0

/-- Object identity key of a node, modelling Python object identity for
membership in the `sightings` set. -/
def IR.idOf : IR → Nat
  | .set i _ _ _ _ => i
  | _ => 0

/-- Identity key of a recorded aggregate context. -/
def sKey : Option IR → Option Nat :=
  Option.map IR.idOf

/-- Parameters of the `FindAggregatingUses` visitor: the target PathId and
the skip set. -/
structure FAU where
  target : PathId
  to_skip : List PathId

/-- Mutable state of the visitor: the current aggregate context and the
set of recorded sightings (a Python `set` of objects, deduplicated by
object identity). -/
structure VState where
  aggregate : Option IR
  sightings : List (Option IR)

/-- Adding a sighting to the set: no-op when an identical (by object
identity) context was already recorded. -/
def addSighting (l : List (Option IR)) (x : Option IR) : List (Option IR) :=
  if l.any (fun y => sKey y == sKey x) then l else x :: l

/-- Aggregate context under which one call argument is visited
(`FindAggregatingUses.process_call` loop body): a set-returning call
forces the ungrouped sentinel; a SQL-function-backed call with a SET OF
parameter makes the enclosing call's set the context; otherwise the
context is unchanged. -/
def argAggregate (callsSqlFunc : Bool) (returnsSet : Bool)
    (paramTypemod : TypeModifier) (irSet : IR) (old : Option IR) :
    Option IR :=
  if returnsSet then none
  else if callsSqlFunc && (paramTypemod == TypeModifier.SetOfType) then
    some irSet
  else old

mutual

/-- The visitor dispatch (`FindAggregatingUses.visit_Set`,
`visit_Stmt`, and generic visiting for other nodes). -/
def visitIR (t : FAU) (node : IR) (st : VState) : VState :=
  match node with
  | .set i pid rptr shape expr =>
    if pid ∈ t.to_skip then st
    else if pid = t.target then
      { st with sightings := addSighting st.sightings st.aggregate }
    else
      let st1 := visitOpt t rptr st
      let st2 := visitList t shape st1
      visitSetExpr t expr (IR.set i pid rptr shape expr) st2
  | .stmt isSel ordby lim off hasMat bindings iter subj result others =>
    let old := st.aggregate
    let st0 :=
      if isSel && (!ordby.isEmpty || lim.isSome || off.isSome || hasMat) then
        { st with aggregate := none }
      else st
    let st1 := visitList t bindings st0
    let st2 := visitOpt t iter st1
    let st3 := visitOpt t subj st2
    let st4 := visitIR t result st3
    let st5 := visitOpt t lim (visitOpt t off (visitList t ordby st4))
    let st6 := visitList t others st5
    { st6 with aggregate := old }
  | .call _ _ _ args => visitArgList t args st
  | .generic children => visitList t children st

/-- Dispatch on the `expr` of a set node (`visit_Set` tail): a `Call`
expr goes through `process_call` with the set node itself as the
enclosing `ir_set`; any other expr is visited; a missing expr is a
no-op. -/
def visitSetExpr (t : FAU) (expr : Option IR) (node : IR) (st : VState) :
    VState :=
  match expr with
  | some (.call isFn sqlFn tm args) =>
    processCall t (isFn && sqlFn) (tm == TypeModifier.SetOfType) args node st
  | some (.set i p r s e) => visitIR t (.set i p r s e) st
  | some (.stmt a b c d f g h j k l) => visitIR t (.stmt a b c d f g h j k l) st
  | some (.generic cs) => visitIR t (.generic cs) st
  | none => st

/-- Visiting a list of children in order. -/
def visitList (t : FAU) (ns : List IR) (st : VState) : VState :=
  match ns with
  | [] => st
  | n :: rest => visitList t rest (visitIR t n st)

/-- Visiting an optional child. -/
def visitOpt (t : FAU) (n : Option IR) (st : VState) : VState :=
  match n with
  | none => st
  | some x => visitIR t x st

/-- Generic visit of call arguments (no context manipulation), for call
nodes that are not the `expr` of a set. -/
def visitArgList (t : FAU) (args : List (TypeModifier × IR)) (st : VState) :
    VState :=
  match args with
  | [] => st
  | (_, a) :: rest => visitArgList t rest (visitIR t a st)

/-- The `process_call` loop: each argument is visited under the context
computed by `argAggregate`, and the previous context is restored after
each argument. -/
def processCall (t : FAU) (callsSqlFunc : Bool) (returnsSet : Bool)
    (args : List (TypeModifier × IR)) (irSet : IR) (st : VState) : VState :=
  match args with
  | [] => st
  | (tm, a) :: rest =>
    let old := st.aggregate
    let st1 := visitIR t a
      { st with aggregate := argAggregate callsSqlFunc returnsSet tm irSet old }
    processCall t callsSqlFunc returnsSet rest irSet
      { st1 with aggregate := old }

end

/-! Grouping elements (`qlast.GroupingElement` / `qlast.GroupingAtom`).
The Python values are dynamically typed, so each union carries an extra
constructor standing for any unrecognized node. -/

/-- Grouping atom: an identifier list or an object reference into `using`;
`unknownAtom` stands for any other node shape. -/
inductive GroupingAtom where
  | objectRef (name : String)
  | identList (elements : List GroupingAtom)
  | unknownAtom
deriving Repr

/-- Grouping element: GROUPING SETS, a ROLLUP/CUBE operation, a simple
wrapper; `unknownElement` stands for any other node shape. -/
inductive GroupingElement where
  | sets (sets : List GroupingElement)
  | operation (oper : String) (elements : List GroupingAtom)
  | simple (element : GroupingAtom)
  | unknownElement
deriving Repr

/-- The pgast fragment built by this pass.  `literalExpr` holds the raw
SQL text of a numeric literal (`str(mask)`, `'0'`), embedded by its
numeric value.  `selectStmt` holds the target list (optional column name
and value) and the FROM clause. -/
inductive PgExpr where
  | arrayExpr (elements : List PgExpr)
  | stringConstant (val : String)
  | nullConstant
  | literalExpr (val : Nat)
  | columnRef (name : String)
  | funcCall (name : String) (args : List PgExpr)
  | caseExpr (arg : PgExpr) (whens : List (PgExpr × PgExpr))
             (defresult : PgExpr)
  | binOp (op : String) (l r : PgExpr)
  | selectStmt (target_list : List (Option String × PgExpr))
               (from_clause : List PgExpr)
  | rangeSubselect (subquery : PgExpr) (al : String)
  | groupingOperation (operation : Option String) (args : List PgExpr)
deriving Repr

/-- Errors raised by this pass.  The first two model `AssertionError`
(fatal internal invariant violations); `usingKeyError` models the
`KeyError` of `stmt.using[name]`; `pathVarLookupError` models a failed
`get_path_var`; `noGroupingBinding` models the
`assert stmt.grouping_binding`. -/
inductive CompileErr where
  | unknownGroupingElement
  | atomNotObjectRef
  | usingKeyError
  | pathVarLookupError
  | noGroupingBinding
deriving DecidableEq, Repr

/-- The IR GROUP statement (`irast.GroupStmt`), restricted to the fields
this pass reads: the subject's PathId, the group binding's PathId, the
optional grouping binding's PathId, the `using` mapping (alias to the
bound set's PathId, insertion ordered), the `by` elements, and the
result/where/orderby sub-expressions. -/
structure GroupStmtIR where
  subject_path : PathId
  group_binding_path : PathId
  grouping_binding : Option PathId
  using_ : List (String × PathId)
  by_ : List GroupingElement
  result : IR
  where_ : Option IR
  orderby_ : Option IR

/-- Compilation environment: the path-binding registry of the group
relation (`get_path_var` on `grouprel`) and the alias generation
counter. -/
structure Env where
  pathVar : PathId → Option PgExpr
  aliasCtr : Nat

/-- Fresh alias of the environment's alias generator
(`ctx.env.aliases.get(prefix)`). -/
def aliasName (hint : String) (n : Nat) : String :=
  hint ++ "~" ++ toString n

mutual

/-- The `compile_grouping_atom` function: an identifier list becomes a
generic grouping-operation node over the compiled children; an object
reference resolves `stmt.using[name]` and emits its value path variable;
anything else is an assertion failure. -/
def compile_grouping_atom (env : Env) (stmt : GroupStmtIR) :
    GroupingAtom → Except CompileErr PgExpr
  | .identList elements =>
    (compileAtomList env stmt elements).map
      (fun args => PgExpr.groupingOperation none args)
  | .objectRef name =>
    match stmt.using_.lookup name with
    | none => .error .usingKeyError
    | some pid =>
      match env.pathVar pid with
      | none => .error .pathVarLookupError
      | some v => .ok v
  | .unknownAtom => .error .atomNotObjectRef

/-- Compiling a list of grouping atoms in order. -/
def compileAtomList (env : Env) (stmt : GroupStmtIR) :
    List GroupingAtom → Except CompileErr (List PgExpr)
  | [] => .ok []
  | a :: rest =>
    match compile_grouping_atom env stmt a with
    | .error e => .error e
    | .ok v =>
      match compileAtomList env stmt rest with
      | .error e => .error e
      | .ok vs => .ok (v :: vs)

end

mutual

/-- The `compile_grouping_el` function: GROUPING SETS and ROLLUP/CUBE
operations become tagged grouping-operation nodes over the compiled
children, a simple wrapper unwraps to its atom, and any other shape
raises `AssertionError('Unknown GroupingElement')`. -/
def compile_grouping_el (env : Env) (stmt : GroupStmtIR) :
    GroupingElement → Except CompileErr PgExpr
  | .sets subs =>
    (compileElList env stmt subs).map
      (fun args => PgExpr.groupingOperation (some "GROUPING SETS") args)
  | .operation oper elements =>
    (compileAtomList env stmt elements).map
      (fun args => PgExpr.groupingOperation (some oper) args)
  | .simple element => compile_grouping_atom env stmt element
  | .unknownElement => .error .unknownGroupingElement

/-- Compiling a list of grouping elements in order. -/
def compileElList (env : Env) (stmt : GroupStmtIR) :
    List GroupingElement → Except CompileErr (List PgExpr)
  | [] => .ok []
  | e :: rest =>
    match compile_grouping_el env stmt e with
    | .error err => .error err
    | .ok v =>
      match compileElList env stmt rest with
      | .error err => .error err
      | .ok vs => .ok (v :: vs)

end

/-- Appending an element to a deduplicated list, keeping first
occurrences. -/
def dedupAdd (acc : List String) (x : String) : List String :=
  if x ∈ acc then acc else acc ++ [x]

mutual

/-- Names referenced by one grouping atom, in reference order. -/
def atomNames : GroupingAtom → List String
  | .objectRef name => [name]
  | .identList elements => atomNamesList elements
  | .unknownAtom => []

/-- Names referenced by a list of grouping atoms. -/
def atomNamesList : List GroupingAtom → List String
  | [] => []
  | a :: rest => atomNames a ++ atomNamesList rest

end

mutual

/-- Names referenced by one grouping element. -/
def elNames : GroupingElement → List String
  | .sets subs => elNamesList subs
  | .operation _ elements => atomNamesList elements
  | .simple element => atomNames element
  | .unknownElement => []

/-- Names referenced by a list of grouping elements. -/
def elNamesList : List GroupingElement → List String
  | [] => []
  | e :: rest => elNames e ++ elNamesList rest

end

/-- Modelled from the spec: `desugar_group.collect_grouping_atoms` (from
`edb.edgeql.desugar_group`, not part of this repository's sources)
collects the set of grouping-key names actually referenced by the `by`
elements, order preserved from first reference, deduplicated. -/
def collect_grouping_atoms (els : List GroupingElement) : List String :=
  (elNamesList els).foldl dedupAdd []

/-- The `name.split('~')[0]` normalization applied to key names: the
prefix of the name before the first tilde (the whole name when there is
none). -/
def splitTilde (s : String) : String :=
  String.mk (s.data.takeWhile (fun c => c ≠ '~'))

/-- Resolving each used key name through `stmt.using` (the
`{k: stmt.using[k] for k in used_args}` comprehension; a missing key is a
`KeyError`). -/
def lookupUsing (stmt : GroupStmtIR) :
    List String → Except CompileErr (List (String × PathId))
  | [] => .ok []
  | k :: rest =>
    match stmt.using_.lookup k with
    | none => .error .usingKeyError
    | some pid =>
      match lookupUsing stmt rest with
      | .error e => .error e
      | .ok l => .ok ((k, pid) :: l)

/-- Resolving the value path variables of the used keys
(`get_path_var(grouprel, alias_set.path_id, aspect='value')`). -/
def getPathVars (env : Env) :
    List PathId → Except CompileErr (List PgExpr)
  | [] => .ok []
  | p :: rest =>
    match env.pathVar p with
    | none => .error .pathVarLookupError
    | some v =>
      match getPathVars env rest with
      | .error e => .error e
      | .ok l => .ok (v :: l)

/-- Per-key decode conditionals of the general path: key `i` of `names`
(0-based, of `N` total) is assigned the bitmask `1 <<< (N - i - 1)` and
compiled to `CASE (g & mask) WHEN 0 THEN 'name' ELSE NULL END`. -/
def buildDecodeEls (groupingRef : PgExpr) (names : List String) :
    List PgExpr :=
  names.enum.map (fun p =>
    PgExpr.caseExpr
      (.binOp "&" groupingRef
        (.literalExpr (1 <<< (names.length - p.1 - 1))))
      [(.literalExpr 0, .stringConstant (splitTilde p.2))]
      .nullConstant)

/-- The `_compile_grouping_value` function: asserts the grouping binding,
takes the single-key fast path when exactly one distinct key is
referenced, and otherwise builds the grouping-indicator sub-query with
the per-key bitmask decode conditionals collected into
`array_remove(ARRAY[...], NULL)`. -/
def _compile_grouping_value (stmt : GroupStmtIR) (env : Env) :
    Except CompileErr PgExpr :=
  if stmt.grouping_binding.isNone then .error .noGroupingBinding else
  match collect_grouping_atoms stmt.by_ with
  | [k] => .ok (.arrayExpr [.stringConstant (splitTilde k)])
  | usedArgs =>
    match lookupUsing stmt usedArgs with
    | .error e => .error e
    | .ok usingPairs =>
      match getPathVars env (usingPairs.map (fun q => q.2)) with
      | .error e => .error e
      | .ok args =>
        let groupingAlias := aliasName "g" env.aliasCtr
        let subq : PgExpr :=
          .selectStmt [(some groupingAlias, .funcCall "grouping" args)] []
        let els := buildDecodeEls (.columnRef groupingAlias)
          (usingPairs.map (fun q => q.1))
        let val : PgExpr :=
          .funcCall "array_remove" [.arrayExpr els, .nullConstant]
        .ok (.selectStmt [(none, val)]
          [.rangeSubselect subq (aliasName "" (env.aliasCtr + 1))])

/-! The orchestrator `_compile_group`.  Calls into the external
collaborators (dispatch, relctx, pathctx, clauses) are recorded as an
ordered trace of effects; the relation and relation-variable objects are
identified by fixed tags (`queryId`, `grouprelId`, `subjRvarId`,
`groupRvarId`). -/

/-- Tag of the parent query relation (`ctx.stmt`). -/
def queryId : Nat := 0

/-- Tag of the group relation (`groupctx.rel`). -/
def grouprelId : Nat := 1

/-- Tag of the compiled subject's relation variable (`subj_rvar`). -/
def subjRvarId : Nat := 0

/-- Tag of the group relation's relation variable (`group_rvar`). -/
def groupRvarId : Nat := 1

/-- Flavor of a path registration. -/
inductive Flavor where
  | plain
  | packed
deriving DecidableEq, Repr

/-- Effects of `_compile_group` on scopes and registries, in program
order: `includeRvar` is `relctx.include_rvar` (with its `update_mask`
flag), `relJoin` is `relctx.rel_join`, `putPathVar` is
`pathctx.put_path_var`/`put_path_value_var` (with its flavor),
`putPathRvar` is `pathctx.put_path_rvar`, `dispatchSubject` and
`dispatchUsing` are the `dispatch.visit` calls, `setGroupClause` sets
`grouprel.group_clause`, and the four `compile*` markers are the clause
collaborator calls. -/
inductive Effect where
  | includeRvar (rel rvar : Nat) (path : PathId) (flavor : Flavor)
                (update_mask : Bool)
  | relJoin (rel rvar : Nat)
  | putPathVar (rel : Nat) (path : PathId) (flavor : Flavor)
  | putPathRvar (rel : Nat) (path : PathId) (rvar : Nat)
  | dispatchSubject (path : PathId)
  | dispatchUsing (path : PathId)
  | setGroupClause (els : List PgExpr)
  | compileMaterialized
  | compileOutput
  | compileFilter
  | compileOrderby
deriving Repr

/-- The analyzer invocation of `_compile_group`: a `FindAggregatingUses`
visitor over the group binding's PathId with the `using` PathIds as the
skip set, applied to `stmt.result` only. -/
def groupUsesOf (stmt : GroupStmtIR) : List (Option IR) :=
  (visitIR
    ⟨stmt.group_binding_path, stmt.using_.map (fun p => p.2)⟩
    stmt.result ⟨none, []⟩).sightings

/-- The effect trace of `_compile_group` (given the compiled grouping
elements `els`), in source order: subject compilation and its two
mask-suppressed attachments, `using` compilation, one hoisted aggregate
per non-null discovered context, the packed materialization when the
ungrouped sentinel was discovered, the grouping-value binding, the group
clause, the join back into the parent query, the re-registrations against
the group relation's rvar, and the delegated clause compilations. -/
def groupTrace (stmt : GroupStmtIR) (els : List PgExpr) :
    Bool × List Effect :=
  let uses := groupUsesOf stmt
  let packed := uses.any (fun u => u.isNone)
  let tr :=
    [Effect.dispatchSubject stmt.subject_path,
     Effect.includeRvar grouprelId subjRvarId stmt.group_binding_path
       Flavor.plain false,
     Effect.includeRvar grouprelId subjRvarId stmt.subject_path
       Flavor.plain false]
    ++ stmt.using_.map (fun p => Effect.dispatchUsing p.2)
    ++ uses.filterMap (fun u =>
         u.map (fun s => Effect.putPathVar grouprelId s.pathIdOf Flavor.plain))
    ++ (if packed then
          [Effect.putPathVar grouprelId stmt.group_binding_path Flavor.packed]
        else [])
    ++ (match stmt.grouping_binding with
        | some g => [Effect.putPathVar grouprelId g Flavor.plain]
        | none => [])
    ++ [Effect.setGroupClause els]
    ++ (if packed then
          [Effect.includeRvar queryId groupRvarId stmt.group_binding_path
            Flavor.packed false]
        else [Effect.relJoin queryId groupRvarId])
    ++ ((uses.filterMap id).map (fun s =>
          Effect.putPathRvar queryId s.pathIdOf groupRvarId)
        ++ stmt.using_.map (fun p =>
             Effect.putPathRvar queryId p.2 groupRvarId)
        ++ (match stmt.grouping_binding with
            | some g => [Effect.putPathRvar queryId g groupRvarId]
            | none => []))
    ++ [Effect.compileMaterialized, Effect.compileOutput]
    ++ (match stmt.where_ with
        | some _ => [Effect.compileFilter] | none => [])
    ++ (match stmt.orderby_ with
        | some _ => [Effect.compileOrderby] | none => [])
  (packed, tr)

/-- The `_compile_group` function: runs the analyzer on the result,
compiles the grouping-value binding when requested (which may raise), the
grouping elements (which may raise), and otherwise produces the packed
flag and the effect trace. -/
def _compile_group (stmt : GroupStmtIR) (env : Env) :
    Except CompileErr (Bool × List Effect) :=
  match (match stmt.grouping_binding with
         | some _ => (_compile_grouping_value stmt env).map (fun _ => ())
         | none => .ok ()) with
  | .error e => .error e
  | .ok _ =>
    match compileElList env stmt stmt.by_ with
    | .error e => .error e
    | .ok els => .ok (groupTrace stmt els)

/-- Whether an effect registers the packed array materialization into the
group relation. -/
def isPackedMatReg : Effect → Bool
  | .putPathVar rel _ .packed => rel == grouprelId
  | _ => false

/-- Whether an effect attaches the subject's relation variable into the
group relation. -/
def isSubjAttach : Effect → Bool
  | .includeRvar rel rvar _ _ _ => rel == grouprelId && rvar == subjRvarId
  | _ => false

/-- One step of the output-column mask of relation `rel`:
`include_rvar` updates the mask only when `update_mask` is set; no other
effect touches it. -/
def applyMask (rel : Nat) (m : List PathId) : Effect → List PathId
  | .includeRvar r _ p _ true => if r = rel then p :: m else m
  | _ => m

/-- Output-column mask of relation `rel` after running an effect
trace. -/
def relMaskAfter (tr : List Effect) (rel : Nat) (m : List PathId) :
    List PathId :=
  tr.foldl (applyMask rel) m

/-! Semantics of the grouping-value decode fragment, for reading the
emitted conditionals back: an SQL NULL is `Option.none`. -/

/-- Value of one emitted decode conditional under a grouping-indicator
value `g` bound to the indicator column `galias`:
`CASE (galias & mask) WHEN 0 THEN 'name' ELSE NULL END` selects the name
exactly when `g &&& mask = 0`.  Any other expression shape reads as
NULL. -/
def evalCaseEl (g : Nat) (galias : String) : PgExpr → Option String
  | .caseExpr (.binOp "&" (.columnRef c) (.literalExpr m))
      [(.literalExpr 0, .stringConstant s)] .nullConstant =>
    if c = galias ∧ g &&& m = 0 then some s else none
  | _ => none

/-- Value of the final `array_remove(ARRAY[...], NULL)` expression: the
per-element conditional values with the NULL entries stripped. -/
def evalDecodeArray (g : Nat) (galias : String) :
    PgExpr → Option (List String)
  | .funcCall "array_remove" [.arrayExpr els, .nullConstant] =>
    some (els.filterMap (evalCaseEl g galias))
  | _ => none

/-- The value expression of the last target-list entry of a select
sub-query (the appended `ResTarget(val=val)`). -/
def finalTarget : PgExpr → Option PgExpr
  | .selectStmt ts _ => ts.getLast?.map (fun p => p.2)
  | _ => none

mutual

/-- Whether an expression contains a runtime grouping-indicator
computation: any sub-query or any call of the native `grouping`
function. -/
def hasRuntimeIndicator : PgExpr → Bool
  | .arrayExpr els => hasRuntimeIndicatorList els
  | .stringConstant _ => false
  | .nullConstant => false
  | .literalExpr _ => false
  | .columnRef _ => false
  | .funcCall n args => n == "grouping" || hasRuntimeIndicatorList args
  | .caseExpr a whens d =>
    hasRuntimeIndicator a || hasRuntimeIndicatorPairs whens ||
      hasRuntimeIndicator d
  | .binOp _ l r => hasRuntimeIndicator l || hasRuntimeIndicator r
  | .selectStmt _ _ => true
  | .rangeSubselect _ _ => true
  | .groupingOperation _ args => hasRuntimeIndicatorList args

/-- List form of `hasRuntimeIndicator`. -/
def hasRuntimeIndicatorList : List PgExpr → Bool
  | [] => false
  | e :: rest => hasRuntimeIndicator e || hasRuntimeIndicatorList rest

/-- Pair-list form of `hasRuntimeIndicator`. -/
def hasRuntimeIndicatorPairs : List (PgExpr × PgExpr) → Bool
  | [] => false
  | (a, b) :: rest =>
    hasRuntimeIndicator a || hasRuntimeIndicator b ||
      hasRuntimeIndicatorPairs rest

end

/-! A pure mirror of the analyzer traversal: the contexts recorded inside
a node, as a function of the node and of the aggregate context at entry
alone.  Used to state that the visitor's output is insensitive to
previously visited sibling subtrees. -/

mutual

/-- Contexts recorded while visiting `node` with aggregate context `agg`
at entry. -/
def recIR (t : FAU) (node : IR) (agg : Option IR) : List (Option IR) :=
  match node with
  | .set i pid rptr shape expr =>
    if pid ∈ t.to_skip then []
    else if pid = t.target then [agg]
    else
      recOpt t rptr agg ++ recList t shape agg ++
        recSetExpr t expr (IR.set i pid rptr shape expr) agg
  | .stmt isSel ordby lim off hasMat bindings iter subj result others =>
    let agg0 :=
      if isSel && (!ordby.isEmpty || lim.isSome || off.isSome || hasMat) then
        none
      else agg
    recList t bindings agg0 ++ recOpt t iter agg0 ++ recOpt t subj agg0 ++
      recIR t result agg0 ++ recList t ordby agg0 ++ recOpt t off agg0 ++
      recOpt t lim agg0 ++ recList t others agg0
  | .call _ _ _ args => recArgList t args agg
  | .generic children => recList t children agg

/-- Contexts recorded by the expr dispatch of a set node. -/
def recSetExpr (t : FAU) (expr : Option IR) (node : IR) (agg : Option IR) :
    List (Option IR) :=
  match expr with
  | some (.call isFn sqlFn tm args) =>
    recCallArgs t (isFn && sqlFn) (tm == TypeModifier.SetOfType) args node agg
  | some (.set i p r s e) => recIR t (.set i p r s e) agg
  | some (.stmt a b c d f g h j k l) => recIR t (.stmt a b c d f g h j k l) agg
  | some (.generic cs) => recIR t (.generic cs) agg
  | none => []

/-- Contexts recorded by a list of children. -/
def recList (t : FAU) (ns : List IR) (agg : Option IR) : List (Option IR) :=
  match ns with
  | [] => []
  | n :: rest => recIR t n agg ++ recList t rest agg

/-- Contexts recorded by an optional child. -/
def recOpt (t : FAU) (n : Option IR) (agg : Option IR) : List (Option IR) :=
  match n with
  | none => []
  | some x => recIR t x agg

/-- Contexts recorded by generically visited call arguments. -/
def recArgList (t : FAU) (args : List (TypeModifier × IR))
    (agg : Option IR) : List (Option IR) :=
  match args with
  | [] => []
  | (_, a) :: rest => recIR t a agg ++ recArgList t rest agg

/-- Contexts recorded by the `process_call` loop: each argument under the
context computed by `argAggregate` from the entry context. -/
def recCallArgs (t : FAU) (callsSqlFunc : Bool) (returnsSet : Bool)
    (args : List (TypeModifier × IR)) (irSet : IR) (agg : Option IR) :
    List (Option IR) :=
  match args with
  | [] => []
  | (tm, a) :: rest =>
    recIR t a (argAggregate callsSqlFunc returnsSet tm irSet agg) ++
      recCallArgs t callsSqlFunc returnsSet rest irSet agg

end

/-- Identity keys of a sighting list. -/
def sKeys (l : List (Option IR)) : List (Option Nat) :=
  l.map sKey

/-! Recognized shapes and assertion errors for the grouping-element
compiler. -/

mutual

/-- Whether a grouping atom is built from recognized shapes only. -/
def atomWellFormed : GroupingAtom → Bool
  | .objectRef _ => true
  | .identList es => atomListWellFormed es
  | .unknownAtom => false

/-- List form of `atomWellFormed`. -/
def atomListWellFormed : List GroupingAtom → Bool
  | [] => true
  | a :: rest => atomWellFormed a && atomListWellFormed rest

end

mutual

/-- Whether a grouping element is built from recognized shapes only
(GROUPING SETS, ROLLUP/CUBE operation, identifier list, atom reference,
simple wrapper). -/
def elWellFormed : GroupingElement → Bool
  | .sets subs => elListWellFormed subs
  | .operation _ es => atomListWellFormed es
  | .simple a => atomWellFormed a
  | .unknownElement => false

/-- List form of `elWellFormed`. -/
def elListWellFormed : List GroupingElement → Bool
  | [] => true
  | e :: rest => elWellFormed e && elListWellFormed rest

end

/-- Whether an error is one of the `AssertionError` raises of the
grouping-element compiler (fatal internal invariant violations, as
opposed to lookup errors). -/
def isAssertionErr : CompileErr → Bool
  | .unknownGroupingElement => true
  | .atomNotObjectRef => true
  | _ => false

/-- Whether a compilation outcome is an assertion failure. -/
def resultAssertionErr {α : Type} : Except CompileErr α → Bool
  | .error e => isAssertionErr e
  | .ok _ => false

/-! Concrete inputs used to exercise the theorems. -/

/-- A bare reference to a path: a set node with no pointer, shape or
expr. -/
def bareRef (i : Nat) (p : PathId) : IR := .set i p none [] none

/-- A set node whose expr is a call with a single argument. -/
def mkCallSet (i : Nat) (pid : PathId) (isFn sqlFn : Bool)
    (retTm tm : TypeModifier) (arg : IR) : IR :=
  .set i pid none [] (some (.call isFn sqlFn retTm [(tm, arg)]))

/-- A GROUP statement whose result is a bare occurrence of the group
binding (path 0). -/
def c1stmt : GroupStmtIR :=
  { subject_path := 10, group_binding_path := 0, grouping_binding := none,
    using_ := [("k", 3)], by_ := [.simple (.objectRef "k")],
    result := bareRef 1 0, where_ := none, orderby_ := none }

/-- An environment resolving the `using` binding of `c1stmt`. -/
def c1env : Env :=
  { pathVar := fun p => if p = 3 then some (.columnRef "k") else none,
    aliasCtr := 0 }

/-- The effect trace produced for `c1stmt`. -/
def c1trace : List Effect :=
  [Effect.dispatchSubject 10,
   Effect.includeRvar 1 0 0 Flavor.plain false,
   Effect.includeRvar 1 0 10 Flavor.plain false,
   Effect.dispatchUsing 3,
   Effect.putPathVar 1 0 Flavor.packed,
   Effect.setGroupClause [PgExpr.columnRef "k"],
   Effect.includeRvar 0 1 0 Flavor.packed false,
   Effect.putPathRvar 0 3 1,
   Effect.compileMaterialized,
   Effect.compileOutput]

/-- An aggregate-context occurrence of the group binding: a singleton
call backed by a SQL function with a SET OF parameter, applied to a bare
reference to path 0. -/
def c2agg : IR :=
  mkCallSet 1 5 true true TypeModifier.SingletonType TypeModifier.SetOfType
    (bareRef 2 0)

/-- A GROUP statement whose result occurrence of the group binding lies
inside an aggregate context only. -/
def c2stmt : GroupStmtIR :=
  { subject_path := 10, group_binding_path := 0, grouping_binding := none,
    using_ := [("k", 3)], by_ := [.simple (.objectRef "k")],
    result := c2agg, where_ := none, orderby_ := none }

/-- An environment resolving the `using` binding of `c2stmt`. -/
def c2env : Env :=
  { pathVar := fun p => if p = 3 then some (.columnRef "k") else none,
    aliasCtr := 0 }

/-- The effect trace produced for `c2stmt`. -/
def c2trace : List Effect :=
  [Effect.dispatchSubject 10,
   Effect.includeRvar 1 0 0 Flavor.plain false,
   Effect.includeRvar 1 0 10 Flavor.plain false,
   Effect.dispatchUsing 3,
   Effect.putPathVar 1 5 Flavor.plain,
   Effect.setGroupClause [PgExpr.columnRef "k"],
   Effect.relJoin 0 1,
   Effect.putPathRvar 0 5 1,
   Effect.putPathRvar 0 3 1,
   Effect.compileMaterialized,
   Effect.compileOutput]

/-- A GROUP statement with two distinct grouping keys under a ROLLUP
operation and a requested grouping binding. -/
def c3stmt : GroupStmtIR :=
  { subject_path := 10, group_binding_path := 0, grouping_binding := some 7,
    using_ := [("a", 3), ("b", 4)],
    by_ := [.operation "rollup" [.objectRef "a", .objectRef "b"]],
    result := bareRef 1 0, where_ := none, orderby_ := none }

/-- An environment resolving both `using` bindings of `c3stmt`. -/
def c3env : Env :=
  { pathVar := fun p =>
      if p = 3 then some (.columnRef "a")
      else if p = 4 then some (.columnRef "b") else none,
    aliasCtr := 0 }

/-- The grouping-value expression produced for `c3stmt`. -/
def c3q : PgExpr :=
  .selectStmt
    [(none,
      .funcCall "array_remove"
        [.arrayExpr
          (buildDecodeEls (.columnRef (aliasName "g" 0)) ["a", "b"]),
         .nullConstant])]
    [.rangeSubselect
      (.selectStmt
        [(some (aliasName "g" 0),
          .funcCall "grouping" [.columnRef "a", .columnRef "b"])] [])
      (aliasName "" 1)]

/-- A GROUP statement with a single referenced grouping key and a
requested grouping binding. -/
def c4stmt : GroupStmtIR :=
  { subject_path := 10, group_binding_path := 0, grouping_binding := some 7,
    using_ := [("a", 3)], by_ := [.simple (.objectRef "a")],
    result := bareRef 1 0, where_ := none, orderby_ := none }

/-- An environment for `c4stmt`. -/
def c4env : Env :=
  { pathVar := fun p => if p = 3 then some (.columnRef "a") else none,
    aliasCtr := 0 }

/-- An aggregate-context occurrence used inside a nested ORDER BY
statement. -/
def c5agg : IR :=
  mkCallSet 3 5 true true TypeModifier.SingletonType TypeModifier.SetOfType
    (bareRef 4 0)

/-- A nested SELECT statement carrying its own ORDER BY whose result
contains an aggregate-context occurrence of the target (path 0). -/
def c5inner : IR :=
  .stmt true [.generic []] none none false [] none none c5agg []

/-- A GROUP statement whose result occurrence of the group binding lies
only in the `where` clause. -/
def c7stmt : GroupStmtIR :=
  { subject_path := 10, group_binding_path := 0, grouping_binding := none,
    using_ := [("k", 3)], by_ := [.simple (.objectRef "k")],
    result := .generic [], where_ := some (bareRef 1 0), orderby_ := none }

/-- The where-clause expression of `c7stmt`. -/
def c7where : IR := bareRef 1 0

/-- A well-formed grouping element exercising every recognized shape. -/
def c8el : GroupingElement :=
  .sets [.operation "ROLLUP" [.objectRef "a", .identList [.objectRef "b"]],
         .simple (.objectRef "b")]

/-- A GROUP statement and environment for compiling `c8el`. -/
def c8stmt : GroupStmtIR :=
  { subject_path := 10, group_binding_path := 0, grouping_binding := none,
    using_ := [("a", 3), ("b", 4)], by_ := [c8el],
    result := bareRef 1 0, where_ := none, orderby_ := none }

/-- An environment resolving both `using` bindings of `c8stmt`. -/
def c8env : Env :=
  { pathVar := fun p =>
      if p = 3 then some (.columnRef "a")
      else if p = 4 then some (.columnRef "b") else none,
    aliasCtr := 0 }

/-! Lemmas. -/

theorem sightings_addSighting (l : List (Option IR)) (a : Option IR)
    (x : Option Nat) :
    x ∈ sKeys (addSighting l a) ↔ x ∈ sKeys l ∨ x = sKey a := by
  unfold addSighting
  by_cases h : l.any (fun y => sKey y == sKey a) = true
  · simp only [h, if_true]
    constructor
    · exact Or.inl
    · rintro (hx | rfl)
      · exact hx
      · obtain ⟨y, hy, hk⟩ := List.any_eq_true.mp h
        exact List.mem_map.mpr ⟨y, hy, beq_iff_eq.mp hk⟩
  · rw [if_neg h]
    simp only [sKeys, List.map_cons, List.mem_cons]
    tauto

mutual

theorem visitIR_aggregate (t : FAU) (node : IR) (st : VState) :
    (visitIR t node st).aggregate = st.aggregate := by
  cases node with
  | set i pid rptr shape expr =>
    rw [visitIR]
    by_cases h1 : pid ∈ t.to_skip
    · simp only [if_pos h1]
    · by_cases h2 : pid = t.target
      · simp only [if_neg h1, if_pos h2]
      · simp only [if_neg h1, if_neg h2]
        rw [visitSetExpr_aggregate, visitList_aggregate, visitOpt_aggregate]
  | stmt isSel ordby lim off hasMat bindings iter subj result others =>
    rw [visitIR]
  | call a b c args =>
    rw [visitIR]; exact visitArgList_aggregate t args st
  | generic children =>
    rw [visitIR]; exact visitList_aggregate t children st

theorem visitSetExpr_aggregate (t : FAU) (expr : Option IR) (node : IR)
    (st : VState) :
    (visitSetExpr t expr node st).aggregate = st.aggregate := by
  cases expr with
  | none => rw [visitSetExpr]
  | some e =>
    cases e with
    | call isFn sqlFn tm args =>
      rw [visitSetExpr]; exact processCall_aggregate t _ _ args node st
    | set i p r s e2 =>
      rw [visitSetExpr]; exact visitIR_aggregate t _ st
    | stmt a b c d f g h j k l =>
      rw [visitSetExpr]; exact visitIR_aggregate t _ st
    | generic cs =>
      rw [visitSetExpr]; exact visitIR_aggregate t _ st

theorem visitList_aggregate (t : FAU) (ns : List IR) (st : VState) :
    (visitList t ns st).aggregate = st.aggregate := by
  cases ns with
  | nil => rw [visitList]
  | cons n rest =>
    rw [visitList, visitList_aggregate, visitIR_aggregate]

theorem visitOpt_aggregate (t : FAU) (n : Option IR) (st : VState) :
    (visitOpt t n st).aggregate = st.aggregate := by
  cases n with
  | none => rw [visitOpt]
  | some x => rw [visitOpt]; exact visitIR_aggregate t x st

theorem visitArgList_aggregate (t : FAU) (args : List (TypeModifier × IR))
    (st : VState) :
    (visitArgList t args st).aggregate = st.aggregate := by
  cases args with
  | nil => rw [visitArgList]
  | cons p rest =>
    rw [visitArgList, visitArgList_aggregate, visitIR_aggregate]

theorem processCall_aggregate (t : FAU) (cs rs : Bool)
    (args : List (TypeModifier × IR)) (irSet : IR) (st : VState) :
    (processCall t cs rs args irSet st).aggregate = st.aggregate := by
  cases args with
  | nil => rw [processCall]
  | cons p rest =>
    rw [processCall, processCall_aggregate]

end

theorem sKeys_append (l1 l2 : List (Option IR)) :
    sKeys (l1 ++ l2) = sKeys l1 ++ sKeys l2 :=
  List.map_append sKey l1 l2

mutual

theorem visitIR_keys (t : FAU) (node : IR) (st : VState) (x : Option Nat) :
    x ∈ sKeys (visitIR t node st).sightings ↔
      x ∈ sKeys st.sightings ∨ x ∈ sKeys (recIR t node st.aggregate) := by
  cases node with
  | set i pid rptr shape expr =>
    rw [visitIR, recIR]
    by_cases h1 : pid ∈ t.to_skip
    · simp only [if_pos h1]
      simp [sKeys]
    · by_cases h2 : pid = t.target
      · simp only [if_neg h1, if_pos h2]
        rw [sightings_addSighting]
        simp [sKeys]
      · simp only [if_neg h1, if_neg h2]
        rw [visitSetExpr_keys, visitList_keys, visitOpt_keys,
          visitList_aggregate, visitOpt_aggregate]
        simp only [sKeys_append, List.mem_append]
        tauto
  | stmt isSel ordby lim off hasMat bindings iter subj result others =>
    simp only [visitIR, recIR]
    by_cases hc :
        (isSel && (!ordby.isEmpty || lim.isSome || off.isSome || hasMat))
          = true
    all_goals simp only [hc, if_true, if_false, Bool.false_eq_true]
    all_goals
      rw [visitList_keys, visitOpt_keys, visitOpt_keys, visitList_keys,
        visitIR_keys, visitOpt_keys, visitOpt_keys, visitList_keys]
    all_goals
      simp only [visitList_aggregate, visitOpt_aggregate, visitIR_aggregate]
    all_goals simp only [sKeys_append, List.mem_append]
    all_goals tauto
  | call a b c args =>
    rw [visitIR, recIR]; exact visitArgList_keys t args st x
  | generic children =>
    rw [visitIR, recIR]; exact visitList_keys t children st x

theorem visitSetExpr_keys (t : FAU) (expr : Option IR) (node : IR)
    (st : VState) (x : Option Nat) :
    x ∈ sKeys (visitSetExpr t expr node st).sightings ↔
      x ∈ sKeys st.sightings ∨
        x ∈ sKeys (recSetExpr t expr node st.aggregate) := by
  cases expr with
  | none => rw [visitSetExpr, recSetExpr]; simp [sKeys]
  | some e =>
    cases e with
    | call isFn sqlFn tm args =>
      rw [visitSetExpr, recSetExpr]
      exact processCall_keys t _ _ args node st x
    | set i p r s e2 =>
      rw [visitSetExpr, recSetExpr]; exact visitIR_keys t _ st x
    | stmt a b c d f g h j k l =>
      rw [visitSetExpr, recSetExpr]; exact visitIR_keys t _ st x
    | generic cs =>
      rw [visitSetExpr, recSetExpr]; exact visitIR_keys t _ st x

theorem visitList_keys (t : FAU) (ns : List IR) (st : VState)
    (x : Option Nat) :
    x ∈ sKeys (visitList t ns st).sightings ↔
      x ∈ sKeys st.sightings ∨ x ∈ sKeys (recList t ns st.aggregate) := by
  cases ns with
  | nil => rw [visitList, recList]; simp [sKeys]
  | cons n rest =>
    rw [visitList, recList, visitList_keys, visitIR_keys, visitIR_aggregate]
    simp only [sKeys_append, List.mem_append]
    tauto

theorem visitOpt_keys (t : FAU) (n : Option IR) (st : VState)
    (x : Option Nat) :
    x ∈ sKeys (visitOpt t n st).sightings ↔
      x ∈ sKeys st.sightings ∨ x ∈ sKeys (recOpt t n st.aggregate) := by
  cases n with
  | none => rw [visitOpt, recOpt]; simp [sKeys]
  | some y => rw [visitOpt, recOpt]; exact visitIR_keys t y st x

theorem visitArgList_keys (t : FAU) (args : List (TypeModifier × IR))
    (st : VState) (x : Option Nat) :
    x ∈ sKeys (visitArgList t args st).sightings ↔
      x ∈ sKeys st.sightings ∨
        x ∈ sKeys (recArgList t args st.aggregate) := by
  cases args with
  | nil => rw [visitArgList, recArgList]; simp [sKeys]
  | cons p rest =>
    rw [visitArgList, recArgList, visitArgList_keys, visitIR_keys,
      visitIR_aggregate]
    simp only [sKeys_append, List.mem_append]
    tauto

theorem processCall_keys (t : FAU) (cs rs : Bool)
    (args : List (TypeModifier × IR)) (irSet : IR) (st : VState)
    (x : Option Nat) :
    x ∈ sKeys (processCall t cs rs args irSet st).sightings ↔
      x ∈ sKeys st.sightings ∨
        x ∈ sKeys (recCallArgs t cs rs args irSet st.aggregate) := by
  cases args with
  | nil => rw [processCall, recCallArgs]; simp [sKeys]
  | cons p rest =>
    rw [processCall, recCallArgs, processCall_keys, visitIR_keys]
    simp only [sKeys_append, List.mem_append]
    tauto

end

theorem filter_false_of_all {α : Type} (p : α → Bool) (l : List α)
    (h : ∀ a ∈ l, p a = false) : l.filter p = [] := by
  induction l with
  | nil => rfl
  | cons a rest ih =>
    rw [List.filter_cons, h a (List.mem_cons_self a rest)]
    exact ih (fun b hb => h b (List.mem_cons_of_mem a hb))

theorem compile_group_ok_elim (stmt : GroupStmtIR) (env : Env)
    (p : Bool) (tr : List Effect)
    (h : _compile_group stmt env = .ok (p, tr)) :
    ∃ els, compileElList env stmt stmt.by_ = .ok els ∧
      groupTrace stmt els = (p, tr) := by
  unfold _compile_group at h
  cases hgb : (match stmt.grouping_binding with
    | some _ => (_compile_grouping_value stmt env).map (fun _ => ())
    | none => .ok ()) with
  | error e => rw [hgb] at h; exact absurd h (by simp)
  | ok u =>
    rw [hgb] at h
    cases hel : compileElList env stmt stmt.by_ with
    | error e => rw [hel] at h; exact absurd h (by simp)
    | ok els =>
      rw [hel] at h
      exact ⟨els, rfl, by simpa using h⟩

theorem groupTrace_packed_flag (stmt : GroupStmtIR) (els : List PgExpr) :
    (groupTrace stmt els).1 = (groupUsesOf stmt).any (fun u => u.isNone) :=
  rfl

theorem filter_map_nil {α : Type} (q : Effect → Bool) (f : α → Effect)
    (l : List α) (h : ∀ a, q (f a) = false) : (l.map f).filter q = [] := by
  apply filter_false_of_all
  intro e he
  obtain ⟨a, _, rfl⟩ := List.mem_map.mp he
  exact h a

theorem filter_filterMap_nil {α : Type} (q : Effect → Bool)
    (f : α → Option Effect) (l : List α)
    (h : ∀ a e, f a = some e → q e = false) :
    (l.filterMap f).filter q = [] := by
  apply filter_false_of_all
  intro e he
  obtain ⟨a, _, ha⟩ := List.mem_filterMap.mp he
  exact h a e ha

theorem filter_gbmatch_nil (q : Effect → Bool) (g : Option PathId)
    (f : PathId → Effect) (h : ∀ x, q (f x) = false) :
    ((match g with | some x => [f x] | none => []) : List Effect).filter q
      = [] := by
  cases g with
  | some x => simp [List.filter_cons, h x]
  | none => rfl

theorem groupTrace_filter_packed (stmt : GroupStmtIR) (els : List PgExpr) :
    ((groupTrace stmt els).2).filter isPackedMatReg =
      (if (groupUsesOf stmt).any (fun u => u.isNone) then
        [Effect.putPathVar grouprelId stmt.group_binding_path Flavor.packed]
      else []) := by
  unfold groupTrace
  simp only [List.filter_append]
  rw [filter_map_nil isPackedMatReg
      (fun p => Effect.dispatchUsing p.2) stmt.using_ (fun a => rfl),
    filter_filterMap_nil isPackedMatReg
      (fun u => u.map (fun s =>
        Effect.putPathVar grouprelId s.pathIdOf Flavor.plain))
      (groupUsesOf stmt)
      (by intro a e ha; cases a with
          | none => simp at ha
          | some s =>
            obtain rfl :
                Effect.putPathVar grouprelId s.pathIdOf Flavor.plain = e := by
              simpa using ha
            rfl),
    filter_map_nil isPackedMatReg
      (fun s => Effect.putPathRvar queryId s.pathIdOf groupRvarId)
      ((groupUsesOf stmt).filterMap id) (fun a => rfl),
    filter_map_nil isPackedMatReg
      (fun p => Effect.putPathRvar queryId p.2 groupRvarId)
      stmt.using_ (fun a => rfl),
    filter_gbmatch_nil isPackedMatReg stmt.grouping_binding
      (fun g => Effect.putPathVar grouprelId g Flavor.plain) (fun x => rfl),
    filter_gbmatch_nil isPackedMatReg stmt.grouping_binding
      (fun g => Effect.putPathRvar queryId g groupRvarId) (fun x => rfl)]
  cases hp : (groupUsesOf stmt).any (fun u => u.isNone) <;>
    cases hw : stmt.where_ <;>
      cases ho : stmt.orderby_ <;>
        simp [isPackedMatReg, List.filter_cons, List.filter]

theorem groupTrace_filter_subj (stmt : GroupStmtIR) (els : List PgExpr) :
    ((groupTrace stmt els).2).filter isSubjAttach =
      [Effect.includeRvar grouprelId subjRvarId stmt.group_binding_path
        Flavor.plain false,
       Effect.includeRvar grouprelId subjRvarId stmt.subject_path
        Flavor.plain false] := by
  unfold groupTrace
  simp only [List.filter_append]
  rw [filter_map_nil isSubjAttach
      (fun p => Effect.dispatchUsing p.2) stmt.using_ (fun a => rfl),
    filter_filterMap_nil isSubjAttach
      (fun u => u.map (fun s =>
        Effect.putPathVar grouprelId s.pathIdOf Flavor.plain))
      (groupUsesOf stmt)
      (by intro a e ha; cases a with
          | none => simp at ha
          | some s =>
            obtain rfl :
                Effect.putPathVar grouprelId s.pathIdOf Flavor.plain = e := by
              simpa using ha
            rfl),
    filter_map_nil isSubjAttach
      (fun s => Effect.putPathRvar queryId s.pathIdOf groupRvarId)
      ((groupUsesOf stmt).filterMap id) (fun a => rfl),
    filter_map_nil isSubjAttach
      (fun p => Effect.putPathRvar queryId p.2 groupRvarId)
      stmt.using_ (fun a => rfl),
    filter_gbmatch_nil isSubjAttach stmt.grouping_binding
      (fun g => Effect.putPathVar grouprelId g Flavor.plain) (fun x => rfl),
    filter_gbmatch_nil isSubjAttach stmt.grouping_binding
      (fun g => Effect.putPathRvar queryId g groupRvarId) (fun x => rfl)]
  cases hp : (groupUsesOf stmt).any (fun u => u.isNone) <;>
    cases hw : stmt.where_ <;>
      cases ho : stmt.orderby_ <;>
        simp [isSubjAttach, List.filter_cons, List.filter, queryId,
          grouprelId, subjRvarId, groupRvarId]

theorem relMaskAfter_eq (tr : List Effect) (rel : Nat)
    (h : ∀ e ∈ tr, ∀ m, applyMask rel m e = m) (m : List PathId) :
    relMaskAfter tr rel m = m := by
  induction tr generalizing m with
  | nil => rfl
  | cons e rest ih =>
    unfold relMaskAfter at *
    rw [List.foldl_cons, h e (List.mem_cons_self e rest)]
    exact ih (fun x hx => h x (List.mem_cons_of_mem e hx)) m

theorem groupTrace_no_mask_update (stmt : GroupStmtIR) (els : List PgExpr)
    (r v p : Nat) (f : Flavor) :
    Effect.includeRvar r v p f true ∉ (groupTrace stmt els).2 := by
  intro hmem
  simp only [groupTrace] at hmem
  cases hp : (groupUsesOf stmt).any (fun u => u.isNone) <;>
    cases hgb : stmt.grouping_binding <;>
      cases hw : stmt.where_ <;>
        cases ho : stmt.orderby_ <;>
          simp only [hp, hgb, hw, ho] at hmem <;>
            simp [List.mem_append, List.mem_filterMap,
              Option.map_eq_some'] at hmem

theorem groupTrace_mask (stmt : GroupStmtIR) (els : List PgExpr)
    (m : List PathId) :
    relMaskAfter (groupTrace stmt els).2 grouprelId m = m := by
  apply relMaskAfter_eq
  intro e he m'
  cases e
  case includeRvar r v p f u =>
    cases u
    · rfl
    · exact absurd he (groupTrace_no_mask_update stmt els r v p f)
  all_goals rfl

theorem groupTrace_hoist_mem (stmt : GroupStmtIR) (els : List PgExpr)
    (s : IR) (h : some s ∈ groupUsesOf stmt) :
    Effect.putPathVar grouprelId s.pathIdOf Flavor.plain ∈
      (groupTrace stmt els).2 := by
  unfold groupTrace
  simp only [List.append_assoc, List.mem_append]
  have hC : Effect.putPathVar grouprelId s.pathIdOf Flavor.plain ∈
      (groupUsesOf stmt).filterMap (fun u =>
        u.map (fun x =>
          Effect.putPathVar grouprelId x.pathIdOf Flavor.plain)) :=
    List.mem_filterMap.mpr ⟨some s, h, rfl⟩
  exact Or.inr (Or.inr (Or.inl hC))

theorem argAggregate_eq_some_iff (cs rs : Bool) (tm : TypeModifier)
    (irSet : IR) (old : Option IR) (hold : old ≠ some irSet) :
    argAggregate cs rs tm irSet old = some irSet ↔
      rs = false ∧ cs = true ∧ tm = TypeModifier.SetOfType := by
  unfold argAggregate
  cases rs <;> cases cs <;> by_cases htm : tm = TypeModifier.SetOfType <;>
    simp_all

mutual

theorem atom_no_assert (env : Env) (stmt : GroupStmtIR) (a : GroupingAtom)
    (h : atomWellFormed a = true) :
    resultAssertionErr (compile_grouping_atom env stmt a) = false := by
  cases a with
  | objectRef name =>
    rw [compile_grouping_atom]
    cases stmt.using_.lookup name with
    | none => rfl
    | some pid =>
      dsimp only
      cases env.pathVar pid with
      | none => rfl
      | some v => rfl
  | identList es =>
    rw [compile_grouping_atom]
    have hl := atomList_no_assert env stmt es (by simpa [atomWellFormed] using h)
    cases hres : compileAtomList env stmt es with
    | error e => rw [hres] at hl; simpa [Except.map] using hl
    | ok vs => simp [Except.map, resultAssertionErr]
  | unknownAtom => simp [atomWellFormed] at h

theorem atomList_no_assert (env : Env) (stmt : GroupStmtIR)
    (l : List GroupingAtom) (h : atomListWellFormed l = true) :
    resultAssertionErr (compileAtomList env stmt l) = false := by
  cases l with
  | nil => rfl
  | cons a rest =>
    rw [atomListWellFormed] at h
    simp only [Bool.and_eq_true] at h
    obtain ⟨h1, h2⟩ := h
    rw [compileAtomList]
    have ha := atom_no_assert env stmt a h1
    cases hres : compile_grouping_atom env stmt a with
    | error e => rw [hres] at ha; simpa using ha
    | ok v =>
      have hr := atomList_no_assert env stmt rest h2
      cases hres2 : compileAtomList env stmt rest with
      | error e => rw [hres2] at hr; simpa using hr
      | ok vs => rfl

end

mutual

theorem el_no_assert (env : Env) (stmt : GroupStmtIR) (el : GroupingElement)
    (h : elWellFormed el = true) :
    resultAssertionErr (compile_grouping_el env stmt el) = false := by
  cases el with
  | sets subs =>
    rw [compile_grouping_el]
    have hl := elList_no_assert env stmt subs (by simpa [elWellFormed] using h)
    cases hres : compileElList env stmt subs with
    | error e => rw [hres] at hl; simpa [Except.map] using hl
    | ok vs => simp [Except.map, resultAssertionErr]
  | operation oper es =>
    rw [compile_grouping_el]
    have hl := atomList_no_assert env stmt es (by simpa [elWellFormed] using h)
    cases hres : compileAtomList env stmt es with
    | error e => rw [hres] at hl; simpa [Except.map] using hl
    | ok vs => simp [Except.map, resultAssertionErr]
  | simple a =>
    rw [compile_grouping_el]
    exact atom_no_assert env stmt a (by simpa [elWellFormed] using h)
  | unknownElement => simp [elWellFormed] at h

theorem elList_no_assert (env : Env) (stmt : GroupStmtIR)
    (l : List GroupingElement) (h : elListWellFormed l = true) :
    resultAssertionErr (compileElList env stmt l) = false := by
  cases l with
  | nil => rfl
  | cons e rest =>
    rw [elListWellFormed] at h
    simp only [Bool.and_eq_true] at h
    obtain ⟨h1, h2⟩ := h
    rw [compileElList]
    have he := el_no_assert env stmt e h1
    cases hres : compile_grouping_el env stmt e with
    | error err => rw [hres] at he; simpa using he
    | ok v =>
      have hr := elList_no_assert env stmt rest h2
      cases hres2 : compileElList env stmt rest with
      | error err => rw [hres2] at hr; simpa using hr
      | ok vs => rfl

end

theorem lookupUsing_names (stmt : GroupStmtIR) (l : List String)
    (pairs : List (String × PathId)) (h : lookupUsing stmt l = .ok pairs) :
    pairs.map (fun q => q.1) = l := by
  induction l generalizing pairs with
  | nil =>
    rw [lookupUsing] at h
    obtain rfl : ([] : List (String × PathId)) = pairs := by injection h
    rfl
  | cons k rest ih =>
    rw [lookupUsing] at h
    cases hl : stmt.using_.lookup k with
    | none => rw [hl] at h; exact absurd h (by simp)
    | some pid =>
      rw [hl] at h
      dsimp only at h
      cases hr : lookupUsing stmt rest with
      | error e => rw [hr] at h; exact absurd h (by simp)
      | ok l2 =>
        rw [hr] at h
        obtain rfl : (k, pid) :: l2 = pairs := by injection h
        simp [ih l2 hr]

theorem buildDecodeEls_length (r : PgExpr) (names : List String) :
    (buildDecodeEls r names).length = names.length := by
  simp [buildDecodeEls, List.enum_length]

theorem buildDecodeEls_getD (r : PgExpr) (names : List String) (i : Nat)
    (hi : i < names.length) :
    (buildDecodeEls r names).getD i PgExpr.nullConstant =
      PgExpr.caseExpr
        (.binOp "&" r (.literalExpr (1 <<< (names.length - 1 - i))))
        [(.literalExpr 0, .stringConstant (splitTilde (names.getD i "")))]
        .nullConstant := by
  have hlen : i < (buildDecodeEls r names).length := by
    rw [buildDecodeEls_length]; exact hi
  rw [List.getD_eq_getElem _ _ hlen, List.getD_eq_getElem names "" hi]
  unfold buildDecodeEls
  rw [List.getElem_map, List.getElem_enum]
  have hm : names.length - i - 1 = names.length - 1 - i := by omega
  rw [hm]

theorem evalCaseEl_built (g : Nat) (galias : String) (m : Nat) (s : String) :
    evalCaseEl g galias
      (.caseExpr (.binOp "&" (.columnRef galias) (.literalExpr m))
        [(.literalExpr 0, .stringConstant s)] .nullConstant) =
      (if g &&& m = 0 then some s else none) := by
  rw [evalCaseEl]
  simp

/-! Claim theorems. -/

/-- C1: for every GROUP statement whose analyzed sightings contain the
ungrouped sentinel, the compiler sets the packed flag to true and
produces exactly one array-materialization sub-query, registered under
the group-binding PathId with the packed flavor, no matter how many such
occurrences exist; when the sentinel is absent, no such sub-query is
produced. -/
theorem packed_materialization_exactly_once (stmt : GroupStmtIR) (env : Env)
    (p : Bool) (tr : List Effect)
    (h : _compile_group stmt env = .ok (p, tr)) :
    p = (groupUsesOf stmt).any (fun u => u.isNone) ∧
    tr.filter isPackedMatReg =
      (if (groupUsesOf stmt).any (fun u => u.isNone) then
        [Effect.putPathVar grouprelId stmt.group_binding_path Flavor.packed]
      else []) := by
  obtain ⟨els, hel, htr⟩ := compile_group_ok_elim stmt env p tr h
  constructor
  · have hf := groupTrace_packed_flag stmt els
    rw [htr] at hf
    exact hf
  · have hf := groupTrace_filter_packed stmt els
    rw [htr] at hf
    exact hf

/-- Witness for C1: a statement with a bare occurrence of the group
binding compiles with the packed flag set and a single packed
materialization. -/
theorem packed_materialization_exactly_once_witness :
    true = (groupUsesOf c1stmt).any (fun u => u.isNone) ∧
    c1trace.filter isPackedMatReg =
      (if (groupUsesOf c1stmt).any (fun u => u.isNone) then
        [Effect.putPathVar grouprelId c1stmt.group_binding_path Flavor.packed]
      else []) :=
  packed_materialization_exactly_once c1stmt c1env true c1trace rfl

/-- C2: for every GROUP statement whose analyzed sightings do not contain
the ungrouped sentinel, the packed flag is false and no
array-materialization sub-query is built; each discovered aggregate
context is compiled as a hoisted aggregate registered under that set's
PathId. -/
theorem aggregate_contexts_hoisted (stmt : GroupStmtIR) (env : Env)
    (p : Bool) (tr : List Effect)
    (h : _compile_group stmt env = .ok (p, tr))
    (hno : (groupUsesOf stmt).any (fun u => u.isNone) = false) :
    p = false ∧ tr.filter isPackedMatReg = [] ∧
    ∀ s : IR, some s ∈ groupUsesOf stmt →
      Effect.putPathVar grouprelId s.pathIdOf Flavor.plain ∈ tr := by
  obtain ⟨els, hel, htr⟩ := compile_group_ok_elim stmt env p tr h
  refine ⟨?_, ?_, ?_⟩
  · have hf := groupTrace_packed_flag stmt els
    rw [htr, hno] at hf
    exact hf
  · have hf := groupTrace_filter_packed stmt els
    rw [htr, hno] at hf
    simpa using hf
  · intro s hs
    have hm := groupTrace_hoist_mem stmt els s hs
    rw [htr] at hm
    exact hm

/-- Witness for C2: a statement whose only occurrence of the group
binding lies inside an aggregate context compiles unpacked, with the
aggregate hoisted. -/
theorem aggregate_contexts_hoisted_witness :
    false = false ∧ c2trace.filter isPackedMatReg = [] ∧
    Effect.putPathVar grouprelId c2agg.pathIdOf Flavor.plain ∈ c2trace :=
  ⟨rfl,
   (aggregate_contexts_hoisted c2stmt c2env false c2trace rfl rfl).2.1,
   (aggregate_contexts_hoisted c2stmt c2env false c2trace rfl rfl).2.2
     c2agg (List.mem_singleton.mpr rfl)⟩

/-- C9: the compiled subject's relation variable is attached into the
group relation exactly twice, once keyed by the group-binding PathId and
once by the subject PathId, both with the mask update suppressed; the
group relation's output-column mask is unchanged by the whole trace. -/
theorem subject_attached_twice_mask_suppressed (stmt : GroupStmtIR)
    (env : Env) (p : Bool) (tr : List Effect)
    (h : _compile_group stmt env = .ok (p, tr)) :
    tr.filter isSubjAttach =
      [Effect.includeRvar grouprelId subjRvarId stmt.group_binding_path
        Flavor.plain false,
       Effect.includeRvar grouprelId subjRvarId stmt.subject_path
        Flavor.plain false] ∧
    ∀ m, relMaskAfter tr grouprelId m = m := by
  obtain ⟨els, hel, htr⟩ := compile_group_ok_elim stmt env p tr h
  constructor
  · have hf := groupTrace_filter_subj stmt els
    rw [htr] at hf
    exact hf
  · intro m
    have hf := groupTrace_mask stmt els m
    rw [htr] at hf
    exact hf

/-- Witness for C9 at a concrete statement. -/
theorem subject_attached_twice_mask_suppressed_witness :
    c2trace.filter isSubjAttach =
      [Effect.includeRvar grouprelId subjRvarId c2stmt.group_binding_path
        Flavor.plain false,
       Effect.includeRvar grouprelId subjRvarId c2stmt.subject_path
        Flavor.plain false] ∧
    relMaskAfter c2trace grouprelId [5] = [5] :=
  ⟨(subject_attached_twice_mask_suppressed c2stmt c2env false c2trace
      rfl).1,
   (subject_attached_twice_mask_suppressed c2stmt c2env false c2trace
      rfl).2 [5]⟩

/-- C10: the analyzer's aggregate context is saved and restored around
every subtree, so visiting any node leaves the context unchanged; and
the set of recorded sighting contexts extends the incoming set by a pure
function of the node and the context at entry alone, so the context
recorded for a sighting depends only on its chain of enclosing nodes,
never on sibling subtrees visited earlier. -/
theorem analyzer_context_save_restore (t : FAU) (node : IR) (st : VState) :
    (visitIR t node st).aggregate = st.aggregate ∧
    ∀ x : Option Nat,
      x ∈ sKeys (visitIR t node st).sightings ↔
        x ∈ sKeys st.sightings ∨ x ∈ sKeys (recIR t node st.aggregate) :=
  ⟨visitIR_aggregate t node st, fun x => visitIR_keys t node st x⟩

/-- Counterexample to C5 as stated: inside a nested SELECT carrying its
own ORDER BY, a target sighting reached through an aggregate call
argument is recorded with that call's set as its context, not with the
ungrouped (null) context. -/
theorem nested_orderby_subtree_counterexample :
    (visitIR ⟨0, []⟩ c5inner ⟨none, []⟩).sightings = [some c5agg] ∧
    some c5agg ≠ (none : Option IR) :=
  ⟨rfl, by simp⟩

/-- C5 (amended): entering a nested SELECT statement carrying its own
ORDER BY, LIMIT, OFFSET or materialized sub-expressions resets the
aggregate context to the ungrouped sentinel at entry, so the sightings
recorded in its subtree are independent of the incoming context; a
qualifying aggregate-call argument inside the subtree may still
re-establish a non-null context. -/
theorem nested_orderby_resets_context (t : FAU) (isSel : Bool)
    (ordby : List IR) (lim off : Option IR) (hasMat : Bool)
    (bindings : List IR) (iter subj : Option IR) (result : IR)
    (others : List IR) (o1 o2 : Option IR) (s : List (Option IR))
    (hc : (isSel && (!ordby.isEmpty || lim.isSome || off.isSome || hasMat))
      = true) :
    (visitIR t
      (.stmt isSel ordby lim off hasMat bindings iter subj result others)
      ⟨o1, s⟩).sightings =
    (visitIR t
      (.stmt isSel ordby lim off hasMat bindings iter subj result others)
      ⟨o2, s⟩).sightings := by
  simp only [visitIR, hc, if_true]

/-- Witness for C5 (amended): a nested ORDER BY statement analyzed from
two different incoming contexts yields the same sightings. -/
theorem nested_orderby_resets_context_witness :
    (visitIR ⟨0, []⟩ c5inner ⟨some (bareRef 9 9), []⟩).sightings =
    (visitIR ⟨0, []⟩ c5inner ⟨none, []⟩).sightings :=
  nested_orderby_resets_context ⟨0, []⟩ true [.generic []] none none false
    [] none none c5agg [] (some (bareRef 9 9)) none [] rfl

/-- C6: descending into a call argument, the context becomes the
enclosing call's set node exactly when the call is backed by an actual
SQL function and the parameter is declared SET OF; a set-returning call
forces the ungrouped sentinel for all of its arguments, overriding the
former. -/
theorem call_argument_context (isFn sqlFn : Bool)
    (retTm tm : TypeModifier) (old : Option IR) (i j : Nat)
    (pid tp : PathId) (hpt : pid ≠ tp)
    (hold : old ≠ some (mkCallSet i pid isFn sqlFn retTm tm (bareRef j tp))) :
    (visitIR ⟨tp, []⟩ (mkCallSet i pid isFn sqlFn retTm tm (bareRef j tp))
        ⟨old, []⟩).sightings =
      [argAggregate (isFn && sqlFn) (retTm == TypeModifier.SetOfType) tm
        (mkCallSet i pid isFn sqlFn retTm tm (bareRef j tp)) old] ∧
    ((visitIR ⟨tp, []⟩ (mkCallSet i pid isFn sqlFn retTm tm (bareRef j tp))
        ⟨old, []⟩).sightings =
      [some (mkCallSet i pid isFn sqlFn retTm tm (bareRef j tp))] ↔
      retTm ≠ TypeModifier.SetOfType ∧ (isFn && sqlFn) = true ∧
        tm = TypeModifier.SetOfType) ∧
    (retTm = TypeModifier.SetOfType →
      (visitIR ⟨tp, []⟩ (mkCallSet i pid isFn sqlFn retTm tm (bareRef j tp))
          ⟨old, []⟩).sightings = [none]) := by
  have h1 : (visitIR ⟨tp, []⟩
      (mkCallSet i pid isFn sqlFn retTm tm (bareRef j tp))
      ⟨old, []⟩).sightings =
      [argAggregate (isFn && sqlFn) (retTm == TypeModifier.SetOfType) tm
        (mkCallSet i pid isFn sqlFn retTm tm (bareRef j tp)) old] := by
    simp [mkCallSet, bareRef, visitIR, visitSetExpr, processCall, visitOpt,
      visitList, addSighting, hpt]
  refine ⟨h1, ?_, ?_⟩
  · rw [h1]
    have hiff := argAggregate_eq_some_iff (isFn && sqlFn)
      (retTm == TypeModifier.SetOfType) tm
      (mkCallSet i pid isFn sqlFn retTm tm (bareRef j tp)) old hold
    simp only [List.cons.injEq, and_true]
    rw [hiff]
    constructor
    · rintro ⟨ha, hb, hc2⟩
      exact ⟨by simpa using ha, hb, hc2⟩
    · rintro ⟨ha, hb, hc2⟩
      exact ⟨by simpa using ha, hb, hc2⟩
  · intro hrs
    rw [h1]
    unfold argAggregate
    simp [hrs]

/-- Witness for C6: a singleton-returning SQL-function call with a SET OF
parameter establishes the call's set as the context of its argument. -/
theorem call_argument_context_witness :
    (visitIR ⟨0, []⟩
      (mkCallSet 1 1 true true TypeModifier.SingletonType
        TypeModifier.SetOfType (bareRef 2 0)) ⟨none, []⟩).sightings =
    [some (mkCallSet 1 1 true true TypeModifier.SingletonType
      TypeModifier.SetOfType (bareRef 2 0))] :=
  (call_argument_context true true TypeModifier.SingletonType
    TypeModifier.SetOfType none 1 2 1 0 (by decide)
    (by simp [mkCallSet])).2.1.mpr ⟨by decide, rfl, rfl⟩

/-- Counterexample to C7 as stated: the analyzer is applied to the
result expression only; a bare occurrence of the group binding in the
where clause contributes no context to the output set, which stays
empty. -/
theorem analysis_ignores_where_counterexample :
    groupUsesOf c7stmt = [] ∧ c7stmt.where_ = some c7where ∧
    (visitIR ⟨c7stmt.group_binding_path,
        c7stmt.using_.map (fun p => p.2)⟩ c7where ⟨none, []⟩).sightings =
      [none] :=
  ⟨rfl, rfl, rfl⟩

/-- C7 (amended): the aggregating-use analysis is applied to the
statement's result sub-expression only: the discovered context set is
insensitive to the where and order-by sub-expressions, while an
occurrence of the group binding in the result does contribute. -/
theorem analysis_result_only (stmt : GroupStmtIR) (w ob : Option IR)
    (i : Nat)
    (hskip : stmt.group_binding_path ∉ stmt.using_.map (fun p => p.2)) :
    groupUsesOf { stmt with where_ := w, orderby_ := ob } =
      groupUsesOf stmt ∧
    groupUsesOf { stmt with result := bareRef i stmt.group_binding_path } =
      [none] := by
  constructor
  · rfl
  · simp [groupUsesOf, bareRef, visitIR, addSighting, hskip]

/-- Witness for C7 (amended): changing the where clause does not change
the analysis of a concrete statement, and a bare result occurrence is
discovered as the ungrouped sentinel. -/
theorem analysis_result_only_witness :
    groupUsesOf { c7stmt with where_ := none, orderby_ := none } =
      groupUsesOf c7stmt ∧
    groupUsesOf { c7stmt with result := bareRef 1 c7stmt.group_binding_path }
      = [none] :=
  analysis_result_only c7stmt none none 1 (by decide)

/-- C8: an unrecognized grouping-element shape (and an unrecognized atom
shape) raises an immediate assertion failure, the non-recoverable
internal error; a grouping element built from the recognized shapes only
never reaches an assertion-failure branch (its outcome is a value or a
recoverable lookup error). -/
theorem unknown_grouping_element_fatal (env : Env) (stmt : GroupStmtIR)
    (el : GroupingElement) (h : elWellFormed el = true) :
    compile_grouping_el env stmt GroupingElement.unknownElement =
      .error .unknownGroupingElement ∧
    compile_grouping_atom env stmt GroupingAtom.unknownAtom =
      .error .atomNotObjectRef ∧
    resultAssertionErr (compile_grouping_el env stmt el) = false :=
  ⟨rfl, rfl, el_no_assert env stmt el h⟩

/-- Witness for C8: a well-formed element exercising every recognized
shape compiles without hitting an assertion branch. -/
theorem unknown_grouping_element_fatal_witness :
    compile_grouping_el c8env c8stmt GroupingElement.unknownElement =
      .error .unknownGroupingElement ∧
    compile_grouping_atom c8env c8stmt GroupingAtom.unknownAtom =
      .error .atomNotObjectRef ∧
    resultAssertionErr (compile_grouping_el c8env c8stmt c8el) = false :=
  unknown_grouping_element_fatal c8env c8stmt c8el rfl

/-- C3: in the general path of the grouping-value synthesizer, for more
than one distinct referenced key the final expression of the emitted
sub-query is the array of per-key decode conditionals with null entries
stripped; the key at 0-based position i of the collected key sequence is
assigned the bitmask `1 <<< (N - 1 - i)`, and its conditional selects
that key's name literal exactly when the grouping indicator masked by
that bit is zero, and a null marker otherwise. -/
theorem grouping_decode_masks (stmt : GroupStmtIR) (env : Env) (q : PgExpr)
    (ks : List String) (hc : collect_grouping_atoms stmt.by_ = ks)
    (hN : 1 < ks.length)
    (hok : _compile_grouping_value stmt env = .ok q) :
    finalTarget q = some (.funcCall "array_remove"
      [.arrayExpr (buildDecodeEls
        (.columnRef (aliasName "g" env.aliasCtr)) ks), .nullConstant]) ∧
    (buildDecodeEls (.columnRef (aliasName "g" env.aliasCtr)) ks).length
      = ks.length ∧
    (∀ i, i < ks.length →
      (buildDecodeEls (.columnRef (aliasName "g" env.aliasCtr)) ks).getD i
          PgExpr.nullConstant =
        PgExpr.caseExpr
          (.binOp "&" (.columnRef (aliasName "g" env.aliasCtr))
            (.literalExpr (1 <<< (ks.length - 1 - i))))
          [(.literalExpr 0, .stringConstant (splitTilde (ks.getD i "")))]
          .nullConstant) ∧
    (∀ g i, i < ks.length →
      evalCaseEl g (aliasName "g" env.aliasCtr)
          ((buildDecodeEls (.columnRef (aliasName "g" env.aliasCtr))
            ks).getD i PgExpr.nullConstant) =
        (if g &&& (1 <<< (ks.length - 1 - i)) = 0 then
          some (splitTilde (ks.getD i "")) else none)) ∧
    (∀ g, evalDecodeArray g (aliasName "g" env.aliasCtr)
        (.funcCall "array_remove"
          [.arrayExpr (buildDecodeEls
            (.columnRef (aliasName "g" env.aliasCtr)) ks), .nullConstant]) =
      some ((buildDecodeEls (.columnRef (aliasName "g" env.aliasCtr))
        ks).filterMap (evalCaseEl g (aliasName "g" env.aliasCtr)))) := by
  refine ⟨?_, buildDecodeEls_length _ _,
    fun i hi => buildDecodeEls_getD _ _ i hi,
    fun g i hi => by
      rw [buildDecodeEls_getD _ _ i hi, evalCaseEl_built],
    fun g => by rw [evalDecodeArray]⟩
  unfold _compile_grouping_value at hok
  by_cases hgb : stmt.grouping_binding.isNone = true
  · rw [if_pos hgb] at hok
    exact absurd hok (by simp)
  · rw [if_neg hgb, hc] at hok
    cases ks with
    | nil => exact absurd hN (by simp)
    | cons k1 ks2 =>
      cases ks2 with
      | nil => exact absurd hN (by simp)
      | cons k2 rest =>
        dsimp only at hok
        cases hlu : lookupUsing stmt (k1 :: k2 :: rest) with
        | error e => rw [hlu] at hok; exact absurd hok (by simp)
        | ok pairs =>
          rw [hlu] at hok
          dsimp only at hok
          cases hpv : getPathVars env (pairs.map (fun p => p.2)) with
          | error e => rw [hpv] at hok; exact absurd hok (by simp)
          | ok args =>
            rw [hpv] at hok
            dsimp only at hok
            obtain rfl :
                PgExpr.selectStmt
                  [(none, .funcCall "array_remove"
                    [.arrayExpr (buildDecodeEls
                      (.columnRef (aliasName "g" env.aliasCtr))
                      (pairs.map (fun p => p.1))), .nullConstant])]
                  [.rangeSubselect
                    (.selectStmt [(some (aliasName "g" env.aliasCtr),
                      .funcCall "grouping" args)] [])
                    (aliasName "" (env.aliasCtr + 1))] = q := by
              injection hok
            rw [lookupUsing_names stmt _ pairs hlu]
            rfl

/-- Witness for C3: with two keys the masks are 2 and 1; under the
grouping indicator 2 the first key's conditional reads NULL and the
second key's conditional selects its name. -/
theorem grouping_decode_masks_witness :
    finalTarget c3q = some (.funcCall "array_remove"
      [.arrayExpr (buildDecodeEls
        (.columnRef (aliasName "g" c3env.aliasCtr)) ["a", "b"]),
       .nullConstant]) ∧
    evalCaseEl 2 (aliasName "g" c3env.aliasCtr)
      ((buildDecodeEls (.columnRef (aliasName "g" c3env.aliasCtr))
        ["a", "b"]).getD 0 PgExpr.nullConstant) = none ∧
    evalCaseEl 2 (aliasName "g" c3env.aliasCtr)
      ((buildDecodeEls (.columnRef (aliasName "g" c3env.aliasCtr))
        ["a", "b"]).getD 1 PgExpr.nullConstant) = some "b" := by
  have h := grouping_decode_masks c3stmt c3env c3q ["a", "b"] rfl
    (by decide) rfl
  refine ⟨h.1, ?_, ?_⟩
  · rw [h.2.2.2.1 2 0 (by decide)]
    decide
  · rw [h.2.2.2.1 2 1 (by decide)]
    decide

/-- C4: when exactly one distinct grouping key is referenced by the `by`
elements, the grouping-value expression is a constant one-element array
literal naming that key, and no runtime grouping-indicator computation
is emitted. -/
theorem single_key_constant_array (stmt : GroupStmtIR) (env : Env)
    (k : String) (hc : collect_grouping_atoms stmt.by_ = [k])
    (hgb : stmt.grouping_binding.isSome = true) :
    _compile_grouping_value stmt env =
      .ok (.arrayExpr [.stringConstant (splitTilde k)]) ∧
    hasRuntimeIndicator (.arrayExpr [.stringConstant (splitTilde k)])
      = false := by
  constructor
  · unfold _compile_grouping_value
    cases hgb2 : stmt.grouping_binding with
    | none => rw [hgb2] at hgb; exact absurd hgb (by simp)
    | some g =>
      rw [hc]
      simp
  · simp [hasRuntimeIndicator, hasRuntimeIndicatorList]

/-- Witness for C4 at a concrete single-key statement. -/
theorem single_key_constant_array_witness :
    _compile_grouping_value c4stmt c4env =
      .ok (.arrayExpr [.stringConstant (splitTilde "a")]) ∧
    hasRuntimeIndicator (.arrayExpr [.stringConstant (splitTilde "a")])
      = false :=
  single_key_constant_array c4stmt c4env "a" rfl rfl

end Group
